import Mathlib

/-!
Verification of `mkdocs/contrib/search/search_index.py`.

The development shallowly embeds the search-index core: the HTML segmenter
(`ContentParser`), the table-of-contents matcher (`_find_toc_by_id`), the
entry builder (`_add_entry`, `add_entry_from_context`,
`create_entry_for_section`) and the serializer (`generate_search_index`).
Python strings become `String` (operated on via their character lists),
HTML parse events become an explicit event list (the Python `HTMLParser`
base class is external to the repository), and the external `node`
subprocess and the optional `lunr` library are oracles passed as arguments.
-/

namespace Mkdocs

/-! ### Character classes

`wsClass` is the regex character class `[ \t\n\r\f\v]` used in
`_add_entry`; `pyWs` is the set of characters Python's `str.strip()`
removes (those with `str.isspace()` true). -/

def wsClass (c : Char) : Bool :=
  c.toNat == 32 || c.toNat == 9 || c.toNat == 10 || c.toNat == 13 ||
  c.toNat == 12 || c.toNat == 11

def pyWs (c : Char) : Bool :=
  (9 ≤ c.toNat && c.toNat ≤ 13) || c.toNat == 32 ||
  (28 ≤ c.toNat && c.toNat ≤ 31) || c.toNat == 133 || c.toNat == 160 ||
  c.toNat == 5760 || (8192 ≤ c.toNat && c.toNat ≤ 8202) ||
  c.toNat == 8232 || c.toNat == 8233 || c.toNat == 8239 ||
  c.toNat == 8287 || c.toNat == 12288

/-- `text.replace(chr(160), chr(32))` from `_add_entry` (a one-character
to one-character replacement, hence a map). -/
def replaceNbspL (l : List Char) : List Char :=
  l.map fun c => if c.toNat == 160 then ' ' else c

/-- Python `str.strip()`: drop `isspace` characters from both ends. -/
def stripL (l : List Char) : List Char :=
  ((l.dropWhile pyWs).reverse.dropWhile pyWs).reverse

/-- `re.sub(regex, chr(32), s)` for the regex `[ \t\n\r\f\v]+`: each maximal
run of `wsClass` characters becomes one space.  The flag records whether the
previous character belonged to a run already replaced. -/
def collapseGo : Bool → List Char → List Char
  | _, [] => []
  | prev, c :: cs =>
    if wsClass c then
      if prev then collapseGo true cs else ' ' :: collapseGo true cs
    else c :: collapseGo false cs

/-- The text normalization in `SearchIndex._add_entry`:
`text.replace(chr(160), chr(32))` followed by
`re.sub(runs-regex, chr(32), text.strip())`. -/
def normalizeTextL (l : List Char) : List Char :=
  collapseGo false (stripL (replaceNbspL l))

def normalizeText (s : String) : String :=
  ⟨normalizeTextL s.data⟩

/-- Python `str.rstrip(chr(10))`, used on the stripped page HTML. -/
def rstripNlL (l : List Char) : List Char :=
  (l.reverse.dropWhile fun c => c.toNat == 10).reverse

def rstripNl (s : String) : String :=
  ⟨rstripNlL s.data⟩

/-! ### Validators used to state the normalization invariant -/

/-- Characters forbidden by the invariant: tab, newline, carriage return,
form feed, vertical tab, and the non-breaking space. -/
def badChar (c : Char) : Bool :=
  c.toNat == 9 || c.toNat == 10 || c.toNat == 13 || c.toNat == 12 ||
  c.toNat == 11 || c.toNat == 160

def noBadChars (s : String) : Bool :=
  s.data.all fun c => !badChar c

/-- Neither the first nor the last character is whitespace. -/
def noEdgeWs (s : String) : Bool :=
  (match s.data.head? with
   | none => true
   | some c => !pyWs c) &&
  (match s.data.getLast? with
   | none => true
   | some c => !pyWs c)

/-- No two adjacent characters both belong to the collapsed class: every
whitespace run has length one. -/
def adjOk : List Char → Bool
  | [] => true
  | [_] => true
  | a :: b :: rest => (!(wsClass a && wsClass b)) && adjOk (b :: rest)

/-! ### HTML segmenter (`ContentParser`, `ContentSection`)

The Python class extends `html.parser.HTMLParser`: the base class turns the
raw markup into a stream of start-tag / end-tag / text-data callbacks (with
lower-cased tag names) and is outside this repository, so a page's content
is embedded as that event stream. -/

inductive Event where
  | startTag (tag : String) (attrs : List (String × Option String))
  | endTag (tag : String)
  | dataEv (d : String)
deriving DecidableEq

structure ContentSection where
  text : List String
  id : Option String
  title : Option String
deriving DecidableEq

def headerTags : List String := ["h1", "h2", "h3", "h4", "h5", "h6"]

/-- Parser state.  In the source `self.section` aliases the last element of
`self.data`: it is assigned exactly when a section is appended
(`handle_starttag`) and never otherwise, so it is `None` iff `self.data` is
empty and otherwise denotes the final list element; mutation through the
alias is modelled by updating that final element in place. -/
structure ContentParser where
  data : List ContentSection
  isHeaderTag : Bool
  strippedParts : List String
deriving DecidableEq

def initParser : ContentParser :=
  { data := [], isHeaderTag := false, strippedParts := [] }

def updateLast (f : α → α) : List α → List α
  | [] => []
  | [a] => [f a]
  | a :: b :: rest => a :: updateLast f (b :: rest)

/-- The attribute scan in `handle_starttag`: starting from `None`, every
attribute named `id` overwrites the section id (so the last one wins, and a
valueless `id` attribute stores `None`). -/
def sectionIdFromAttrs (attrs : List (String × Option String)) : Option String :=
  attrs.foldl (fun acc a => if a.1 == "id" then a.2 else acc) none

def handleStarttag (p : ContentParser) (tag : String)
    (attrs : List (String × Option String)) : ContentParser :=
  if tag ∈ headerTags then
    { p with
      isHeaderTag := true,
      data := p.data ++ [{ text := [], id := sectionIdFromAttrs attrs, title := none }] }
  else p

def handleEndtag (p : ContentParser) (tag : String) : ContentParser :=
  if tag ∈ headerTags then { p with isHeaderTag := false } else p

def handleData (p : ContentParser) (d : String) : ContentParser :=
  let p := { p with strippedParts := p.strippedParts ++ [d] }
  if p.data.isEmpty then p
  else if p.isHeaderTag then
    { p with data := updateLast (fun s => { s with title := some d }) p.data }
  else
    { p with data := updateLast (fun s => { s with text := s.text ++ [rstripNl d] }) p.data }

def handleEvent (p : ContentParser) : Event → ContentParser
  | .startTag t a => handleStarttag p t a
  | .endTag t => handleEndtag p t
  | .dataEv d => handleData p d

def feed (p : ContentParser) (events : List Event) : ContentParser :=
  events.foldl handleEvent p

/-- The `stripped_html` property: all data fragments joined by newlines. -/
def strippedHtml (p : ContentParser) : String :=
  String.intercalate "\n" p.strippedParts

/-- Whether an event is a heading start tag. -/
def isHeaderStart : Event → Bool
  | .startTag t _ => t ∈ headerTags
  | _ => false

/-- The text payload of a data event. -/
def dataOf : Event → Option String
  | .dataEv d => some d
  | _ => none

/-! ### Table-of-contents nodes and `_find_toc_by_id`

`mkdocs.structure.toc.AnchorLink` carries a string `id`, a `title`, a `url`
and an ordered list of child nodes; a `TableOfContents` is an ordered list
of such nodes.  The child list is encoded with the mutually inductive
`AnchorLinks` (Lean 4.14 cannot build structural recursion through a
`List`-nested inductive), which is the ordered list of nodes. -/

mutual
inductive AnchorLink where
  | mk (id : String) (title : String) (url : String) (children : AnchorLinks)
inductive AnchorLinks where
  | nil
  | cons (hd : AnchorLink) (tl : AnchorLinks)
end

def AnchorLink.id : AnchorLink → String
  | .mk i _ _ _ => i

def AnchorLink.title : AnchorLink → String
  | .mk _ t _ _ => t

def AnchorLink.url : AnchorLink → String
  | .mk _ _ u _ => u

def AnchorLink.children : AnchorLink → AnchorLinks
  | .mk _ _ _ c => c

/-! `SearchIndex._find_toc_by_id`: iterate over the list; a matching item is
returned at once, otherwise its subtree is searched recursively before
moving to the next sibling.  The Python comparison `toc_item.id == id_`
holds exactly when the optional target equals `some` of the node id (a
`str` is never equal to `None`). -/
mutual
def findTocInNode : AnchorLink → Option String → Option AnchorLink
  | .mk i t u c, target =>
    if target == some i then some (.mk i t u c)
    else findTocById c target
def findTocById : AnchorLinks → Option String → Option AnchorLink
  | .nil, _ => none
  | .cons item rest, target =>
    match findTocInNode item target with
    | some r => some r
    | none => findTocById rest target
end

/-! Depth-first pre-order (document order) flattening of a
table-of-contents tree, written from the specification's contract for the
matcher ("return the first node (depth-first, pre-order) whose id equals
the target"). -/
mutual
def preorderOfNode : AnchorLink → List AnchorLink
  | .mk i t u c => .mk i t u c :: preorderToc c
def preorderToc : AnchorLinks → List AnchorLink
  | .nil => []
  | .cons item rest => preorderOfNode item ++ preorderToc rest
end

/-! ### JSON values and `json.dumps`

`generate_search_index` serializes a Python dict with
`json.dumps(-, sort_keys=True, separators=(",", ":"))`: keys of every
object are emitted in sorted order, items are separated by `,` and keys
from values by `:` with no extra whitespace, and strings are escaped with
`ensure_ascii` (the default).  Arrays and objects are encoded with the
mutually inductive `JArr`/`JObj` for the same structural-recursion reason
as above. -/

mutual
inductive JVal where
  | null
  | bool (b : Bool)
  | num (n : Int)
  | str (s : String)
  | arr (xs : JArr)
  | obj (kvs : JObj)
inductive JArr where
  | nil
  | cons (hd : JVal) (tl : JArr)
inductive JObj where
  | nil
  | cons (key : String) (val : JVal) (tl : JObj)
end

def hexDigitChar (n : Nat) : Char :=
  if n < 10 then Char.ofNat (48 + n) else Char.ofNat (87 + n)

def hex4 (n : Nat) : String :=
  ⟨[hexDigitChar (n / 4096 % 16), hexDigitChar (n / 256 % 16),
    hexDigitChar (n / 16 % 16), hexDigitChar (n % 16)]⟩

/-- `json.dumps` string escaping with `ensure_ascii=True`: the two-character
escapes for quote, backslash and the common control characters, `\uXXXX`
for other control or non-ASCII characters, and a surrogate pair for
characters beyond the basic multilingual plane. -/
def escChar (c : Char) : String :=
  if c.toNat == 34 then "\\\""
  else if c.toNat == 92 then "\\\\"
  else if c.toNat == 10 then "\\n"
  else if c.toNat == 13 then "\\r"
  else if c.toNat == 9 then "\\t"
  else if c.toNat == 8 then "\\b"
  else if c.toNat == 12 then "\\f"
  else if c.toNat < 32 then "\\u" ++ hex4 c.toNat
  else if c.toNat < 127 then String.singleton c
  else if c.toNat < 65536 then "\\u" ++ hex4 c.toNat
  else
    "\\u" ++ hex4 (55296 + (c.toNat - 65536) / 1024) ++
    "\\u" ++ hex4 (56320 + (c.toNat - 65536) % 1024)

def jsonEscape (s : String) : String :=
  "\"" ++ String.join (s.data.map escChar) ++ "\""

/-- Lexicographic code-point order on strings, the order Python `sorted`
uses on the keys. -/
def charListLt : List Char → List Char → Bool
  | [], [] => false
  | [], _ :: _ => true
  | _ :: _, [] => false
  | a :: as, b :: bs =>
    if a.toNat < b.toNat then true
    else if b.toNat < a.toNat then false
    else charListLt as bs

def strLt (a b : String) : Bool := charListLt a.data b.data

/-- Stable ascending insertion by key (Python `sorted` on the keys). -/
def insertPair (p : String × String) : List (String × String) → List (String × String)
  | [] => [p]
  | q :: rest => if strLt q.1 p.1 then q :: insertPair p rest else p :: q :: rest

def sortPairs : List (String × String) → List (String × String)
  | [] => []
  | p :: rest => insertPair p (sortPairs rest)

def joinMembers : List (String × String) → String
  | [] => ""
  | [p] => jsonEscape p.1 ++ ":" ++ p.2
  | p :: q :: rest => jsonEscape p.1 ++ ":" ++ p.2 ++ "," ++ joinMembers (q :: rest)

mutual
def dumpJVal : JVal → String
  | .null => "null"
  | .bool b => if b then "true" else "false"
  | .num n => toString n
  | .str s => jsonEscape s
  | .arr xs => "[" ++ String.intercalate "," (dumpArrItems xs) ++ "]"
  | .obj kvs => "\x7b" ++ joinMembers (sortPairs (dumpKVs kvs)) ++ "\x7d"
def dumpArrItems : JArr → List String
  | .nil => []
  | .cons x rest => dumpJVal x :: dumpArrItems rest
def dumpKVs : JObj → List (String × String)
  | .nil => []
  | .cons k v rest => (k, dumpJVal v) :: dumpKVs rest
end

def jsonDumps (v : JVal) : String := dumpJVal v

def JArr.ofList : List JVal → JArr
  | [] => .nil
  | x :: xs => .cons x (JArr.ofList xs)

/-! ### The search index -/

structure IndexEntry where
  title : Option String
  text : String
  location : String
deriving DecidableEq

/-- The recognized configuration options consumed by the core
(`indexing`, `full_path_in_title`, `prebuild_index`, `lang`); the plugin
passes them in the `**config` dict that is also serialized into the
payload. -/
structure SIConfig where
  indexing : String
  full_path_in_title : Bool
  prebuild_index : JVal
  lang : JVal

structure SearchIndex where
  entries : List IndexEntry
  config : SIConfig

/-- `SearchIndex._add_entry`: append one entry with the text normalized. -/
def siAddEntry (si : SearchIndex) (title : Option String) (text : String)
    (loc : String) : SearchIndex :=
  { si with
    entries := si.entries ++ [{ title := title, text := normalizeText text, location := loc }] }

/-- Python `title or toc_item.title` in `create_entry_for_section`: `None`
and the empty string are both falsy. -/
def pyOrTitle (t : Option String) (dflt : String) : String :=
  match t with
  | some s => if s == "" then dflt else s
  | none => dflt

/-- `SearchIndex.create_entry_for_section`: resolve the section id in the
table of contents; on a match append one entry, otherwise do nothing. -/
def createEntryForSection (si : SearchIndex) (sec : ContentSection)
    (toc : AnchorLinks) (absUrl : String) (title : Option String) : SearchIndex :=
  match findTocById toc sec.id with
  | none => si
  | some item =>
    siAddEntry si (some (pyOrTitle title item.title))
      (if si.config.indexing == "full" then String.intercalate " " sec.text else "")
      (absUrl ++ item.url)

/-- The read interface of a page model object: title (`page.title`, which
may be absent), the titles of `page.ancestors` in iteration order,
`page.url`, the parse events of `page.content`, and `page.toc`. -/
structure Page where
  title : Option String
  ancestors : List String
  url : String
  events : List Event
  toc : AnchorLinks

/-- The page-title composition at the top of `add_entry_from_context`:
`title_parts` starts as `[page.title]` when the title is truthy (present
and non-empty), each ancestor title is inserted at position 0 when
`full_path_in_title` is set, and the parts are joined by `" / "`. -/
def composedPageTitle (cfg : SIConfig) (page : Page) : String :=
  let base : List String :=
    match page.title with
    | some t => if t == "" then [] else [t]
    | none => []
  let parts :=
    if cfg.full_path_in_title then
      page.ancestors.foldl (fun ps a => a :: ps) base
    else base
  String.intercalate " / " parts

/-- The section sequence the segmenter produces for a page. -/
def pageSections (page : Page) : List ContentSection :=
  (feed initParser page.events).data

/-- `SearchIndex.add_entry_from_context`: compose the page title, parse the
page, append the page-level entry, and when `indexing` is `full` or
`sections` create one entry per segmented section, passing the composed
page title only for section number zero when `full_path_in_title` is
set. -/
def addEntryFromContext (si : SearchIndex) (page : Page) : SearchIndex :=
  let page_title := composedPageTitle si.config page
  let parser := feed initParser page.events
  let url := page.url
  let text :=
    if si.config.indexing == "full" then rstripNl (strippedHtml parser) else ""
  let si1 := siAddEntry si (some page_title) text url
  if si1.config.indexing == "full" || si1.config.indexing == "sections" then
    parser.data.enum.foldl
      (fun s p =>
        let sectionTitle :=
          if s.config.full_path_in_title && p.1 == 0 then some page_title else none
        createEntryForSection s p.2 page.toc url sectionTitle)
      si1
  else si1

/-! ### `generate_search_index`

The child `node` process and the optional `lunr` library are external; the
subprocess round trip is an oracle argument: either the spawn raised
`OSError`, or it finished with an error-stream text and a stdout that
`json.loads` either parses (`some` value) or rejects (`none`, the
`ValueError` branch). -/

inductive NodeResult where
  | oserror (msg : String)
  | finished (stdout : Option JVal) (stderr : String)

structure GenResult where
  data : String
  warnings : List String

/-- `self.config['prebuild_index'] in (True, 'node')` under Python
equality, where `True == 1`. -/
def prebuildNode (v : JVal) : Bool :=
  (match v with
   | .bool b => b
   | .num n => n == 1
   | _ => false) ||
  (match v with
   | .str s => s == "node"
   | _ => false)

/-- `self.config['prebuild_index'] == 'python'`. -/
def prebuildPython (v : JVal) : Bool :=
  match v with
  | .str s => s == "python"
  | _ => false

def entryToJ (e : IndexEntry) : JVal :=
  .obj (.cons "title" (match e.title with | none => .null | some t => .str t)
       (.cons "text" (.str e.text)
       (.cons "location" (.str e.location) .nil)))

def configToJ (c : SIConfig) : JVal :=
  .obj (.cons "indexing" (.str c.indexing)
       (.cons "full_path_in_title" (.bool c.full_path_in_title)
       (.cons "prebuild_index" c.prebuild_index
       (.cons "lang" c.lang .nil))))

/-- The dict `{'docs': self._entries, 'config': self.config}`. -/
def basePayload (si : SearchIndex) : JVal :=
  .obj (.cons "docs" (.arr (JArr.ofList (si.entries.map entryToJ)))
       (.cons "config" (configToJ si.config) .nil))

/-- The serialization computed before any pre-build attempt (and returned
whenever pre-building is disabled or fails). -/
def uncompiledPayload (si : SearchIndex) : String :=
  jsonDumps (basePayload si)

/-- The payload with the compiled index spliced in as `page_dicts['index']`
before re-serialization. -/
def payloadWithIndex (si : SearchIndex) (idx : JVal) : JVal :=
  .obj (.cons "docs" (.arr (JArr.ofList (si.entries.map entryToJ)))
       (.cons "config" (configToJ si.config)
       (.cons "index" idx .nil)))

def prebuildWarning (msg : String) : String :=
  "Failed to pre-build search index. Error: " ++ msg

def lunrMissingWarning : String :=
  "Failed to pre-build search index. The python method was specified but the lunr.py library is not installed."

/-- `SearchIndex.generate_search_index`.  The method reads but never writes
`self._entries` and `self.config`, so it is a function of the index state;
`log.warning` calls are collected in `warnings`. -/
def generateSearchIndex (si : SearchIndex) (node : NodeResult)
    (haslunrpy : Bool) (lunrSerialized : JVal) : GenResult :=
  let data := uncompiledPayload si
  if prebuildNode si.config.prebuild_index then
    match node with
    | .oserror msg => { data := data, warnings := [prebuildWarning msg] }
    | .finished out err =>
      if err == "" then
        match out with
        | some idx => { data := jsonDumps (payloadWithIndex si idx), warnings := [] }
        | none => { data := data, warnings := [prebuildWarning "stdout is not valid JSON"] }
      else { data := data, warnings := [prebuildWarning err] }
  else if prebuildPython si.config.prebuild_index then
    if haslunrpy then
      { data := jsonDumps (payloadWithIndex si lunrSerialized), warnings := [] }
    else
      { data := data, warnings := [lunrMissingWarning] }
  else { data := data, warnings := [] }

/-- The pre-build strategies that make the child process fall back to the
uncompiled payload: a spawn failure, a non-empty error stream, or
unparsable output. -/
def nodeFailed : NodeResult → Prop
  | .oserror _ => True
  | .finished out err => err ≠ "" ∨ out = none

/-- Pre-build disabled: the configured value selects neither the node nor
the python strategy. -/
def prebuildDisabled (v : JVal) : Prop :=
  prebuildNode v = false ∧ prebuildPython v = false

/-! ### Derived entry descriptions used to state the builder claims -/

def defaultEntry : IndexEntry :=
  { title := none, text := "", location := "" }

def defaultSection : ContentSection :=
  { text := [], id := none, title := none }

/-- The page-level entry `add_entry_from_context` appends. -/
def pageEntryOf (cfg : SIConfig) (page : Page) : IndexEntry :=
  { title := some (composedPageTitle cfg page),
    text := normalizeText
      (if cfg.indexing == "full" then rstripNl (strippedHtml (feed initParser page.events)) else ""),
    location := page.url }

/-- The entry (if any) produced for the indexed section `p.1` with content
`p.2`: nothing when the id resolves to no table-of-contents node, otherwise
the entry `create_entry_for_section` appends given the title argument the
builder passes for that index. -/
def sectionEntryOf (cfg : SIConfig) (toc : AnchorLinks) (url : String)
    (pageTitle : String) (p : Nat × ContentSection) : Option IndexEntry :=
  match findTocById toc p.2.id with
  | none => none
  | some item =>
    some { title := some (pyOrTitle
             (if cfg.full_path_in_title && p.1 == 0 then some pageTitle else none) item.title),
           text := normalizeText
             (if cfg.indexing == "full" then String.intercalate " " p.2.text else ""),
           location := url ++ item.url }

/-! ### Concrete inputs used by witnesses and counterexamples -/

def tocA : AnchorLinks := .cons (.mk "a" "Intro" "#a" .nil) .nil

def cfgFull : SIConfig :=
  { indexing := "full", full_path_in_title := false,
    prebuild_index := .bool false, lang := .null }

def cfgFullPath : SIConfig :=
  { indexing := "full", full_path_in_title := true,
    prebuild_index := .bool false, lang := .null }

def cfgSections : SIConfig :=
  { indexing := "sections", full_path_in_title := false,
    prebuild_index := .bool false, lang := .null }

def cfgNode : SIConfig :=
  { indexing := "full", full_path_in_title := false,
    prebuild_index := .str "node", lang := .null }

/-- `<h2 id="a">Intro</h2><p>Hello world</p>` as parse events. -/
def eventsIntro : List Event :=
  [.startTag "h2" [("id", some "a")], .dataEv "Intro", .endTag "h2",
   .startTag "p" [], .dataEv "Hello world", .endTag "p"]

def pageHome : Page :=
  { title := some "Home", ancestors := [], url := "/x/",
    events := eventsIntro, toc := tocA }

/-- A page with no title and no ancestors: its composed page title is
empty. -/
def pageUntitled : Page :=
  { title := none, ancestors := [], url := "/x/",
    events := [.startTag "h2" [("id", some "a")], .dataEv "Intro", .endTag "h2"],
    toc := tocA }

/-! ## Lemmas about the text normalization -/

theorem wsClass_pyWs {c : Char} (h : wsClass c = true) : pyWs c = true := by
  simp only [wsClass, Bool.or_eq_true, beq_iff_eq] at h
  simp only [pyWs, Bool.or_eq_true, beq_iff_eq, Bool.and_eq_true, decide_eq_true_eq]
  omega


theorem collapseGo_cons_ws_true {d : Char} (ds : List Char) (hd : wsClass d = true) :
    collapseGo true (d :: ds) = collapseGo true ds := by
  simp only [collapseGo, hd, if_true]

theorem collapseGo_cons_ws_false {d : Char} (ds : List Char) (hd : wsClass d = true) :
    collapseGo false (d :: ds) = ' ' :: collapseGo true ds := by
  simp only [collapseGo, hd, if_true, Bool.false_eq_true, if_false]

theorem collapseGo_cons_nws {d : Char} (ds : List Char) (prev : Bool) (hd : wsClass d = false) :
    collapseGo prev (d :: ds) = d :: collapseGo false ds := by
  simp only [collapseGo, hd, Bool.false_eq_true, if_false]

theorem mem_collapseGo (c : Char) :
    ∀ (l : List Char) (prev : Bool), c ∈ collapseGo prev l →
      c = ' ' ∨ (c ∈ l ∧ wsClass c = false) := by
  intro l
  induction l with
  | nil => intro prev h; simp [collapseGo] at h
  | cons d ds ih =>
    intro prev h
    by_cases hd : wsClass d
    · cases prev with
      | true =>
        rw [collapseGo_cons_ws_true ds hd] at h
        rcases ih true h with h1 | ⟨h2, h3⟩
        · exact Or.inl h1
        · exact Or.inr ⟨List.mem_cons_of_mem _ h2, h3⟩
      | false =>
        rw [collapseGo_cons_ws_false ds hd] at h
        rcases List.mem_cons.mp h with rfl | h'
        · exact Or.inl rfl
        · rcases ih true h' with h1 | ⟨h2, h3⟩
          · exact Or.inl h1
          · exact Or.inr ⟨List.mem_cons_of_mem _ h2, h3⟩
    · rw [collapseGo_cons_nws ds prev (by simpa using hd)] at h
      rcases List.mem_cons.mp h with rfl | h'
      · exact Or.inr ⟨List.mem_cons_self _ _, by simpa using hd⟩
      · rcases ih false h' with h1 | ⟨h2, h3⟩
        · exact Or.inl h1
        · exact Or.inr ⟨List.mem_cons_of_mem _ h2, h3⟩

theorem head?_collapseGo_true {c : Char} :
    ∀ (l : List Char), (collapseGo true l).head? = some c → wsClass c = false := by
  intro l
  induction l with
  | nil => intro h; simp [collapseGo] at h
  | cons d ds ih =>
    intro h
    by_cases hd : wsClass d
    · rw [collapseGo_cons_ws_true ds hd] at h
      exact ih h
    · rw [collapseGo_cons_nws ds true (by simpa using hd)] at h
      simp only [List.head?_cons, Option.some.injEq] at h
      subst h
      simpa using hd

theorem adjOk_collapseGo : ∀ (l : List Char) (prev : Bool), adjOk (collapseGo prev l) = true := by
  intro l
  induction l with
  | nil => intro prev; rfl
  | cons d ds ih =>
    intro prev
    by_cases hd : wsClass d
    · cases prev with
      | true => rw [collapseGo_cons_ws_true ds hd]; exact ih true
      | false =>
        rw [collapseGo_cons_ws_false ds hd]
        cases hm : collapseGo true ds with
        | nil => rfl
        | cons b m =>
          have hb : wsClass b = false := head?_collapseGo_true ds (by rw [hm]; rfl)
          have hrest : adjOk (b :: m) = true := by rw [← hm]; exact ih true
          simp [adjOk, hb, hrest]
    · have hd' : wsClass d = false := by simpa using hd
      rw [collapseGo_cons_nws ds prev hd']
      cases hm : collapseGo false ds with
      | nil => rfl
      | cons b m =>
        have hrest : adjOk (b :: m) = true := by rw [← hm]; exact ih false
        simp [adjOk, hd', hrest]

theorem getLast?_collapseGo {c : Char} (hc : wsClass c = false) :
    ∀ (l : List Char) (prev : Bool), l.getLast? = some c →
      (collapseGo prev l).getLast? = some c := by
  intro l
  induction l with
  | nil => intro prev h; simp at h
  | cons d ds ih =>
    intro prev h
    cases ds with
    | nil =>
      simp only [List.getLast?_singleton, Option.some.injEq] at h
      subst h
      rw [collapseGo_cons_nws [] prev hc]
      rfl
    | cons e es =>
      have h' : (e :: es).getLast? = some c := by
        rw [List.getLast?_cons_cons] at h; exact h
      have hm : ∀ prev2, (collapseGo prev2 (e :: es)).getLast? = some c :=
        fun prev2 => ih prev2 h'
      have hcons : ∀ (x : Char) (prev2 : Bool),
          (x :: collapseGo prev2 (e :: es)).getLast? = some c := by
        intro x prev2
        rw [show (x :: collapseGo prev2 (e :: es)) = [x] ++ collapseGo prev2 (e :: es) from rfl,
          List.getLast?_append, hm prev2]
        rfl
      by_cases hd : wsClass d
      · cases prev with
        | true => rw [collapseGo_cons_ws_true _ hd]; exact hm true
        | false => rw [collapseGo_cons_ws_false _ hd]; exact hcons ' ' true
      · rw [collapseGo_cons_nws _ prev (by simpa using hd)]
        exact hcons d false

theorem head?_collapseGo_false {c : Char} (hc : wsClass c = false) :
    ∀ (l : List Char), l.head? = some c → (collapseGo false l).head? = some c := by
  intro l h
  cases l with
  | nil => simp at h
  | cons d ds =>
    simp only [List.head?_cons, Option.some.injEq] at h
    subst h
    rw [collapseGo_cons_nws ds false hc]
    rfl

theorem getLast?_dropWhile (p : α → Bool) :
    ∀ (l : List α), l.dropWhile p ≠ [] → (l.dropWhile p).getLast? = l.getLast? := by
  intro l
  induction l with
  | nil => intro h; simp at h
  | cons d ds ih =>
    intro h
    by_cases hd : p d
    · rw [List.dropWhile_cons_of_pos hd] at h ⊢
      have hds : ds ≠ [] := by
        intro hnil; rw [hnil] at h; simp at h
      rw [ih h]
      cases ds with
      | nil => exact absurd rfl hds
      | cons e es => rw [List.getLast?_cons_cons]
    · rw [List.dropWhile_cons_of_neg hd]

theorem head?_stripL {c : Char} (l : List Char) (h : (stripL l).head? = some c) :
    pyWs c = false := by
  unfold stripL at h
  cases hr : (l.dropWhile pyWs).reverse.dropWhile pyWs with
  | nil => rw [hr] at h; simp at h
  | cons b bs =>
    rw [List.head?_reverse] at h
    have h1 : ((l.dropWhile pyWs).reverse.dropWhile pyWs).getLast? =
        (l.dropWhile pyWs).reverse.getLast? :=
      getLast?_dropWhile pyWs (l.dropWhile pyWs).reverse (by rw [hr]; simp)
    rw [h1, List.getLast?_reverse] at h
    have h2 := List.head?_dropWhile_not pyWs l
    rw [h] at h2
    exact h2

theorem getLast?_stripL {c : Char} (l : List Char) (h : (stripL l).getLast? = some c) :
    pyWs c = false := by
  unfold stripL at h
  rw [List.getLast?_reverse] at h
  have h2 := List.head?_dropWhile_not pyWs (l.dropWhile pyWs).reverse
  rw [h] at h2
  exact h2

theorem mem_stripL {c : Char} (l : List Char) (h : c ∈ stripL l) : c ∈ l := by
  unfold stripL at h
  rw [List.mem_reverse] at h
  have h1 := (List.dropWhile_sublist (l := (l.dropWhile pyWs).reverse) pyWs).mem h
  rw [List.mem_reverse] at h1
  exact (List.dropWhile_sublist pyWs).mem h1

theorem mem_replaceNbspL {c : Char} (l : List Char) (h : c ∈ replaceNbspL l) :
    c.toNat ≠ 160 := by
  unfold replaceNbspL at h
  rw [List.mem_map] at h
  obtain ⟨x, -, rfl⟩ := h
  by_cases hx : x.toNat == 160
  · rw [if_pos hx]; decide
  · rw [if_neg hx]; simpa using hx

theorem normalizeTextL_noBad {c : Char} (l : List Char) (h : c ∈ normalizeTextL l) :
    badChar c = false := by
  unfold normalizeTextL at h
  rcases mem_collapseGo c _ false h with rfl | ⟨h1, h2⟩
  · decide
  · have h3 : c.toNat ≠ 160 := mem_replaceNbspL l (mem_stripL _ h1)
    simp only [wsClass, Bool.or_eq_false_iff, beq_eq_false_iff_ne, ne_eq] at h2
    simp only [badChar, Bool.or_eq_false_iff, beq_eq_false_iff_ne, ne_eq]
    omega

theorem normalizeTextL_head {c : Char} (l : List Char)
    (h : (normalizeTextL l).head? = some c) : pyWs c = false := by
  unfold normalizeTextL at h
  cases hs : (stripL (replaceNbspL l)).head? with
  | none =>
    rw [List.head?_eq_none_iff] at hs
    rw [hs] at h
    simp [collapseGo] at h
  | some b =>
    have hb : pyWs b = false := head?_stripL _ hs
    have hbw : wsClass b = false := by
      cases hw : wsClass b
      · rfl
      · rw [wsClass_pyWs hw] at hb; cases hb
    rw [head?_collapseGo_false hbw _ hs] at h
    cases h
    exact hb

theorem normalizeTextL_getLast {c : Char} (l : List Char)
    (h : (normalizeTextL l).getLast? = some c) : pyWs c = false := by
  unfold normalizeTextL at h
  cases hs : (stripL (replaceNbspL l)).getLast? with
  | none =>
    rw [List.getLast?_eq_none_iff] at hs
    rw [hs] at h
    simp [collapseGo] at h
  | some b =>
    have hb : pyWs b = false := getLast?_stripL _ hs
    have hbw : wsClass b = false := by
      cases hw : wsClass b
      · rfl
      · rw [wsClass_pyWs hw] at hb; cases hb
    rw [getLast?_collapseGo hbw _ false hs] at h
    cases h
    exact hb

/-- The invariant of a freshly appended entry text, as one Boolean
conjunction. -/
theorem normalizeText_invariant (x : String) :
    noBadChars (normalizeText x) = true ∧ noEdgeWs (normalizeText x) = true ∧
      adjOk (normalizeText x).data = true := by
  refine ⟨?_, ?_, ?_⟩
  · rw [noBadChars, List.all_eq_true]
    intro c hc
    rw [normalizeTextL_noBad x.data hc]
    rfl
  · rw [noEdgeWs]
    have h1 : (match (normalizeText x).data.head? with
        | none => true
        | some c => !pyWs c) = true := by
      cases hh : (normalizeText x).data.head? with
      | none => rfl
      | some c =>
        show (!pyWs c) = true
        rw [normalizeTextL_head x.data hh]
        rfl
    have h2 : (match (normalizeText x).data.getLast? with
        | none => true
        | some c => !pyWs c) = true := by
      cases hh : (normalizeText x).data.getLast? with
      | none => rfl
      | some c =>
        show (!pyWs c) = true
        rw [normalizeTextL_getLast x.data hh]
        rfl
    rw [h1, h2]
    rfl
  · exact adjOk_collapseGo _ false

/-- Claim C2: every entry appended by `_add_entry` stores a text with no
tab, newline, carriage-return, form-feed or vertical-tab character and no
non-breaking space, with no leading or trailing whitespace, and with every
whitespace run collapsed to a single space; the appended entry is exactly
the original store extended by one normalized record. -/
theorem claim2_text_normalized (si : SearchIndex) (t : Option String) (x loc : String) :
    (siAddEntry si t x loc).entries =
      si.entries ++ [{ title := t, text := normalizeText x, location := loc }] ∧
    noBadChars (normalizeText x) = true ∧
    noEdgeWs (normalizeText x) = true ∧
    adjOk (normalizeText x).data = true := by
  refine ⟨rfl, normalizeText_invariant x⟩

/-- Claim C10: `_add_entry` normalizes only the text; the appended entry
keeps the `title` and `location` arguments verbatim, no earlier entry is
touched, and the configuration is unchanged. -/
theorem claim10_frame (si : SearchIndex) (t : Option String) (x loc : String) :
    (siAddEntry si t x loc).entries.dropLast = si.entries ∧
    ((siAddEntry si t x loc).entries.getLastD defaultEntry).title = t ∧
    ((siAddEntry si t x loc).entries.getLastD defaultEntry).location = loc ∧
    (siAddEntry si t x loc).config = si.config := by
  refine ⟨?_, ?_, ?_, rfl⟩
  · rw [siAddEntry, List.dropLast_concat]
  · rw [siAddEntry, List.getLastD_concat]
  · rw [siAddEntry, List.getLastD_concat]

/-! ## Lemmas about the table-of-contents matcher -/

mutual
theorem findTocInNode_eq_find? : ∀ (item : AnchorLink) (t : String),
    findTocInNode item (some t) = (preorderOfNode item).find? (fun n => n.id == t)
  | .mk i ti u c, t => by
    rw [findTocInNode, preorderOfNode]
    by_cases h : t = i
    · subst h
      rw [if_pos (by simp), List.find?_cons_of_pos _ (by simp [AnchorLink.id])]
    · rw [if_neg (by simp [h]), List.find?_cons_of_neg _ (by simp [AnchorLink.id, Ne.symm h]),
        findTocById_eq_find? c t]
theorem findTocById_eq_find? : ∀ (toc : AnchorLinks) (t : String),
    findTocById toc (some t) = (preorderToc toc).find? (fun n => n.id == t)
  | .nil, t => by rw [findTocById, preorderToc]; rfl
  | .cons item rest, t => by
    rw [findTocById, preorderToc, List.find?_append,
      ← findTocInNode_eq_find? item t, ← findTocById_eq_find? rest t]
    cases findTocInNode item (some t) with
    | none => rw [Option.none_or]
    | some r => rw [Option.or_some]
end

mutual
theorem findTocInNode_none : ∀ (item : AnchorLink), findTocInNode item none = none
  | .mk i ti u c => by
    rw [findTocInNode, if_neg (by simp), findTocById_none c]
theorem findTocById_none : ∀ (toc : AnchorLinks), findTocById toc none = none
  | .nil => by rw [findTocById]
  | .cons item rest => by
    rw [findTocById, findTocInNode_none item, findTocById_none rest]
end

/-- Claim C5: `_find_toc_by_id` returns the first node in depth-first
pre-order (document order) whose id equals the target, and `none` when no
node carries the target id; a `None` target (a section without an id)
never matches any node. -/
theorem claim5_find_toc (toc : AnchorLinks) :
    (∀ t : String,
        findTocById toc (some t) = (preorderToc toc).find? (fun n => n.id == t)) ∧
    findTocById toc none = none :=
  ⟨fun t => findTocById_eq_find? toc t, findTocById_none toc⟩

/-- Claim C4: a segmented section whose id matches no node anywhere in the
page table of contents produces no entry: `create_entry_for_section`
leaves the index unchanged. -/
theorem claim4_unmatched_dropped (si : SearchIndex) (sec : ContentSection)
    (toc : AnchorLinks) (absUrl : String) (title : Option String)
    (h : ∀ n ∈ preorderToc toc, sec.id ≠ some n.id) :
    createEntryForSection si sec toc absUrl title = si := by
  have hfind : findTocById toc sec.id = none := by
    cases hid : sec.id with
    | none => exact findTocById_none toc
    | some s =>
      rw [findTocById_eq_find? toc s, List.find?_eq_none]
      intro n hn
      have := h n hn
      rw [hid] at this
      simp only [ne_eq, Option.some.injEq] at this
      simp [Ne.symm this]
  rw [createEntryForSection, hfind]

theorem claim4_witness :
    (∀ n ∈ preorderToc tocA,
        (⟨["body"], some "zz", some "T"⟩ : ContentSection).id ≠ some n.id) ∧
    createEntryForSection ⟨[], cfgFull⟩ ⟨["body"], some "zz", some "T"⟩ tocA "/x/" none =
      ⟨[], cfgFull⟩ :=
  ⟨by decide,
   claim4_unmatched_dropped ⟨[], cfgFull⟩ ⟨["body"], some "zz", some "T"⟩ tocA "/x/" none
     (by decide)⟩

/-! ## Characterization of the entry builder -/

theorem createEntryForSection_spec (es : List IndexEntry) (cfg : SIConfig)
    (sec : ContentSection) (toc : AnchorLinks) (url : String) (t : Option String) :
    createEntryForSection ⟨es, cfg⟩ sec toc url t =
      ⟨es ++ (match findTocById toc sec.id with
              | none => []
              | some item =>
                [{ title := some (pyOrTitle t item.title),
                   text := normalizeText
                     (if cfg.indexing == "full" then String.intercalate " " sec.text else ""),
                   location := url ++ item.url }]), cfg⟩ := by
  cases hf : findTocById toc sec.id with
  | none =>
    simp only [createEntryForSection, hf]
    simp
  | some item =>
    simp only [createEntryForSection, hf, siAddEntry]

theorem foldl_createEntry (toc : AnchorLinks) (url : String) (pt : String) :
    ∀ (ps : List (Nat × ContentSection)) (es : List IndexEntry) (cfg : SIConfig),
      ps.foldl
        (fun s p =>
          createEntryForSection s p.2 toc url
            (if s.config.full_path_in_title && p.1 == 0 then some pt else none)) ⟨es, cfg⟩ =
      ⟨es ++ ps.filterMap (sectionEntryOf cfg toc url pt), cfg⟩ := by
  intro ps
  induction ps with
  | nil => intro es cfg; simp
  | cons p ps ih =>
    intro es cfg
    cases hf : findTocById toc p.2.id with
    | none =>
      simp only [List.foldl_cons, createEntryForSection_spec, hf, List.append_nil]
      rw [List.filterMap_cons_none (by rw [sectionEntryOf, hf])]
      exact ih es cfg
    | some item =>
      simp only [List.foldl_cons, createEntryForSection_spec, hf]
      rw [List.filterMap_cons_some (f := sectionEntryOf cfg toc url pt)
        (l := ps) (by rw [sectionEntryOf, hf]), ih, List.append_assoc]
      rfl

theorem addEntryFromContext_spec (si : SearchIndex) (page : Page) :
    addEntryFromContext si page =
      ⟨si.entries ++ [pageEntryOf si.config page] ++
        (if si.config.indexing == "full" || si.config.indexing == "sections" then
          (pageSections page).enum.filterMap
            (sectionEntryOf si.config page.toc page.url (composedPageTitle si.config page))
        else []), si.config⟩ := by
  obtain ⟨es, cfg⟩ := si
  cases hc : (cfg.indexing == "full" || cfg.indexing == "sections") with
  | true =>
    simp only [addEntryFromContext, siAddEntry, hc, if_true]
    rw [foldl_createEntry]
    rfl
  | false =>
    simp only [addEntryFromContext, siAddEntry, hc, Bool.false_eq_true, if_false,
      List.append_nil]
    rfl

/-- Claim C1 does not hold as stated: on a page whose composed page title
is empty (no page title, no ancestors), the first segmented section with a
matching table-of-contents node gets the node title (here `"Intro"`), not
the composed page title (here `""`), even though `full_path_in_title` is
enabled and it is the first section. -/
theorem claim1_counterexample :
    cfgFullPath.full_path_in_title = true ∧
    cfgFullPath.indexing = "full" ∧
    pageSections pageUntitled = [⟨[], some "a", some "Intro"⟩] ∧
    (findTocById pageUntitled.toc (some "a")).isSome = true ∧
    composedPageTitle cfgFullPath pageUntitled = "" ∧
    (addEntryFromContext ⟨[], cfgFullPath⟩ pageUntitled).entries =
      [⟨some "", "Intro", "/x/"⟩, ⟨some "Intro", "", "/x/#a"⟩] ∧
    (⟨some "Intro", "", "/x/#a"⟩ : IndexEntry).title ≠
      some (composedPageTitle cfgFullPath pageUntitled) := by
  decide

/-- Claim C1 (amended): when section entries are emitted (`indexing` is
`full` or `sections`), the entry for a section whose id matches a
table-of-contents node has the composed page title exactly when it is the
first segmented section, `full_path_in_title` is enabled, AND the composed
page title is non-empty; otherwise it has the matched node its own title
(Python `title or toc_item.title` treats the empty composed title as
falsy). -/
theorem claim1_section_titles (si : SearchIndex) (page : Page)
    (h : si.config.indexing = "full" ∨ si.config.indexing = "sections") :
    (addEntryFromContext si page).entries =
      si.entries ++ [pageEntryOf si.config page] ++
      (pageSections page).enum.filterMap (fun p =>
        match findTocById page.toc p.2.id with
        | none => none
        | some item =>
          some { title := some
                   (if si.config.full_path_in_title && p.1 == 0 &&
                       !(composedPageTitle si.config page == "") then
                      composedPageTitle si.config page
                    else item.title),
                 text := normalizeText
                   (if si.config.indexing == "full" then
                      String.intercalate " " p.2.text
                    else ""),
                 location := page.url ++ item.url }) := by
  have hc : (si.config.indexing == "full" || si.config.indexing == "sections") = true := by
    rcases h with h | h <;> rw [h] <;> decide
  rw [addEntryFromContext_spec, if_pos hc]
  have hfun : sectionEntryOf si.config page.toc page.url (composedPageTitle si.config page) =
      fun p =>
        match findTocById page.toc p.2.id with
        | none => none
        | some item =>
          some { title := some
                   (if si.config.full_path_in_title && p.1 == 0 &&
                       !(composedPageTitle si.config page == "") then
                      composedPageTitle si.config page
                    else item.title),
                 text := normalizeText
                   (if si.config.indexing == "full" then
                      String.intercalate " " p.2.text
                    else ""),
                 location := page.url ++ item.url } := by
    funext p
    rw [sectionEntryOf]
    cases hf : findTocById page.toc p.2.id with
    | none => rfl
    | some item =>
      have htitle : pyOrTitle
          (if si.config.full_path_in_title && p.1 == 0 then
            some (composedPageTitle si.config page)
          else none) item.title =
          if si.config.full_path_in_title && p.1 == 0 &&
              !(composedPageTitle si.config page == "") then
            composedPageTitle si.config page
          else item.title := by
        cases hA : si.config.full_path_in_title && p.1 == 0 with
        | true =>
          cases hE : composedPageTitle si.config page == "" with
          | true => simp [pyOrTitle, hE]
          | false => simp [pyOrTitle, hE]
        | false => simp [pyOrTitle]
      simp only [htitle]
  rw [hfun]

theorem claim1_witness :
    (cfgFull.indexing = "full" ∨ cfgFull.indexing = "sections") ∧
    (addEntryFromContext ⟨[], cfgFull⟩ pageHome).entries =
      ([] : List IndexEntry) ++ [pageEntryOf cfgFull pageHome] ++
      (pageSections pageHome).enum.filterMap (fun p =>
        match findTocById pageHome.toc p.2.id with
        | none => none
        | some item =>
          some { title := some
                   (if cfgFull.full_path_in_title && p.1 == 0 &&
                       !(composedPageTitle cfgFull pageHome == "") then
                      composedPageTitle cfgFull pageHome
                    else item.title),
                 text := normalizeText
                   (if cfgFull.indexing == "full" then
                      String.intercalate " " p.2.text
                    else ""),
                 location := pageHome.url ++ item.url }) :=
  ⟨Or.inl rfl, claim1_section_titles ⟨[], cfgFull⟩ pageHome (Or.inl rfl)⟩

/-- Claim C6: with `indexing = "sections"` every entry the builder appends
for a page (the page-level entry and every section entry) has empty
text. -/
theorem claim6_sections_empty_text (si : SearchIndex) (page : Page)
    (h : si.config.indexing = "sections") :
    ∀ e ∈ (addEntryFromContext si page).entries, e ∈ si.entries ∨ e.text = "" := by
  intro e he
  rw [addEntryFromContext_spec] at he
  have hfull : (si.config.indexing == "full") = false := by rw [h]; decide
  simp only [List.mem_append] at he
  rcases he with (he | he) | he
  · exact Or.inl he
  · right
    rw [List.mem_singleton] at he
    subst he
    simp only [pageEntryOf, hfull, Bool.false_eq_true, if_false]
    decide
  · right
    rw [if_pos (by rw [h]; decide)] at he
    rw [List.mem_filterMap] at he
    obtain ⟨p, -, hp⟩ := he
    rw [sectionEntryOf] at hp
    cases hf : findTocById page.toc p.2.id with
    | none => rw [hf] at hp; cases hp
    | some item =>
      rw [hf] at hp
      cases hp
      simp only [hfull, Bool.false_eq_true, if_false]
      decide

theorem claim6_witness :
    cfgSections.indexing = "sections" ∧
    ∀ e ∈ (addEntryFromContext ⟨[], cfgSections⟩ pageHome).entries,
      e ∈ ([] : List IndexEntry) ∨ e.text = "" :=
  ⟨rfl, claim6_sections_empty_text ⟨[], cfgSections⟩ pageHome rfl⟩

/-! ## Lemmas about the segmenter -/

theorem feed_no_header : ∀ (evs : List Event) (p : ContentParser),
    p.data = [] → (∀ e ∈ evs, isHeaderStart e = false) →
    (feed p evs).data = [] ∧
      (feed p evs).strippedParts = p.strippedParts ++ evs.filterMap dataOf := by
  intro evs
  induction evs with
  | nil => intro p hp h; exact ⟨hp, by simp [feed]⟩
  | cons e rest ih =>
    intro p hp h
    have he : isHeaderStart e = false := h e (List.mem_cons_self _ _)
    have hrest : ∀ x ∈ rest, isHeaderStart x = false := fun x hx =>
      h x (List.mem_cons_of_mem _ hx)
    rw [show feed p (e :: rest) = feed (handleEvent p e) rest from rfl]
    cases e with
    | startTag t a =>
      have ht : ¬ t ∈ headerTags := by simpa [isHeaderStart] using he
      have hstep : handleEvent p (.startTag t a) = p := by
        simp [handleEvent, handleStarttag, ht]
      rw [hstep]
      obtain ⟨h1, h2⟩ := ih p hp hrest
      exact ⟨h1, by rw [h2]; rfl⟩
    | endTag t =>
      by_cases ht : t ∈ headerTags
      · have hstep : handleEvent p (.endTag t) = { p with isHeaderTag := false } := by
          simp [handleEvent, handleEndtag, ht]
        rw [hstep]
        obtain ⟨h1, h2⟩ := ih { p with isHeaderTag := false } (by simpa using hp) hrest
        exact ⟨h1, by rw [h2]; rfl⟩
      · have hstep : handleEvent p (.endTag t) = p := by
          simp [handleEvent, handleEndtag, ht]
        rw [hstep]
        obtain ⟨h1, h2⟩ := ih p hp hrest
        exact ⟨h1, by rw [h2]; rfl⟩
    | dataEv d =>
      have hdata : ({ p with strippedParts := p.strippedParts ++ [d] } :
          ContentParser).data.isEmpty = true := by
        show p.data.isEmpty = true
        rw [hp]
        rfl
      have hstep : handleEvent p (.dataEv d) =
          { p with strippedParts := p.strippedParts ++ [d] } := by
        simp only [handleEvent, handleData, hdata, if_true]
      rw [hstep]
      obtain ⟨h1, h2⟩ := ih { p with strippedParts := p.strippedParts ++ [d] }
        (by simpa using hp) hrest
      refine ⟨h1, ?_⟩
      rw [h2]
      show p.strippedParts ++ [d] ++ rest.filterMap dataOf =
        p.strippedParts ++ (d :: rest.filterMap dataOf)
      rw [List.append_assoc]
      rfl

/-- Claim C7: on an event stream with no heading start tags the segmenter
yields no sections, and the stripped page text is exactly the data
fragments joined by newlines. -/
theorem claim7_no_headings (events : List Event)
    (h : ∀ e ∈ events, isHeaderStart e = false) :
    (feed initParser events).data = [] ∧
    strippedHtml (feed initParser events) =
      String.intercalate "\n" (events.filterMap dataOf) := by
  obtain ⟨h1, h2⟩ := feed_no_header events initParser rfl h
  refine ⟨h1, ?_⟩
  rw [strippedHtml, h2]
  rfl

theorem claim7_witness :
    (∀ e ∈ [Event.dataEv "a", Event.startTag "p" [], Event.dataEv "b", Event.endTag "h1"],
        isHeaderStart e = false) ∧
    ((feed initParser
        [Event.dataEv "a", Event.startTag "p" [], Event.dataEv "b", Event.endTag "h1"]).data = [] ∧
      strippedHtml (feed initParser
        [Event.dataEv "a", Event.startTag "p" [], Event.dataEv "b", Event.endTag "h1"]) =
        String.intercalate "\n"
          ([Event.dataEv "a", Event.startTag "p" [], Event.dataEv "b",
            Event.endTag "h1"].filterMap dataOf)) :=
  ⟨by decide, claim7_no_headings _ (by decide)⟩

theorem updateLast_ne_nil : ∀ (l : List α) (f : α → α), l ≠ [] → updateLast f l ≠ [] := by
  intro l f h
  cases l with
  | nil => exact absurd rfl h
  | cons a as =>
    cases as with
    | nil => simp [updateLast]
    | cons b bs => simp [updateLast]

theorem getLastD_updateLast : ∀ (l : List α) (f : α → α) (d : α), l ≠ [] →
    (updateLast f l).getLastD d = f (l.getLastD d) := by
  intro l
  induction l with
  | nil => intro f d h; exact absurd rfl h
  | cons a as ih =>
    intro f d h
    cases as with
    | nil => rfl
    | cons b bs =>
      rw [show updateLast f (a :: b :: bs) = a :: updateLast f (b :: bs) from rfl,
        List.getLastD_cons, ih f a (by simp)]
      exact (congrArg f (List.getLastD_cons d a (b :: bs))).symm

theorem feed_dataEvs_title : ∀ (ds : List String) (p : ContentParser),
    p.isHeaderTag = true → p.data ≠ [] → ds ≠ [] →
    ((feed p (ds.map Event.dataEv)).data.getLastD defaultSection).title =
      some (ds.getLastD "") := by
  intro ds
  induction ds with
  | nil => intro p h1 h2 h3; exact absurd rfl h3
  | cons d ds ih =>
    intro p h1 h2 h3
    have hne : ({ p with strippedParts := p.strippedParts ++ [d] } :
        ContentParser).data.isEmpty = false := by
      show p.data.isEmpty = false
      cases hd : p.data with
      | nil => exact absurd hd h2
      | cons x xs => rfl
    have hstep : handleEvent p (.dataEv d) =
        { p with strippedParts := p.strippedParts ++ [d],
                 data := updateLast (fun s => { s with title := some d }) p.data } := by
      simp only [handleEvent, handleData, hne, Bool.false_eq_true, if_false, h1, if_true]
    cases ds with
    | nil =>
      rw [show ([d].map Event.dataEv) = [Event.dataEv d] from rfl,
        show feed p [Event.dataEv d] = handleEvent p (.dataEv d) from rfl, hstep]
      show ((updateLast (fun s => { s with title := some d }) p.data).getLastD
        defaultSection).title = some d
      rw [getLastD_updateLast p.data _ defaultSection h2]
    | cons e es =>
      rw [show ((d :: e :: es).map Event.dataEv) =
          Event.dataEv d :: (e :: es).map Event.dataEv from rfl,
        show feed p (Event.dataEv d :: (e :: es).map Event.dataEv) =
          feed (handleEvent p (.dataEv d)) ((e :: es).map Event.dataEv) from rfl, hstep]
      have hres := ih
        { p with strippedParts := p.strippedParts ++ [d],
                 data := updateLast (fun s => { s with title := some d }) p.data }
        h1 (updateLast_ne_nil p.data _ h2) (by simp)
      rw [hres]
      have hy : ∃ y, (e :: es).getLast? = some y := by
        cases hls : (e :: es).getLast? with
        | none => rw [List.getLast?_eq_none_iff] at hls; cases hls
        | some y => exact ⟨y, rfl⟩
      obtain ⟨y, hy⟩ := hy
      refine congrArg some ?_
      rw [show (d :: e :: es).getLastD "" = (e :: es).getLastD d from
        List.getLastD_cons "" d (e :: es)]
      rw [List.getLastD_eq_getLast?, List.getLastD_eq_getLast?, hy]
      rfl

/-- Claim C9: while the segmenter is inside a heading, each text fragment
overwrites the current section title, so after a run of data events the
title is the last fragment (never a concatenation). -/
theorem claim9_title_overwrite (p : ContentParser) (ds : List String)
    (h1 : p.isHeaderTag = true) (h2 : p.data ≠ []) (h3 : ds ≠ []) :
    ((feed p (ds.map Event.dataEv)).data.getLastD defaultSection).title =
      some (ds.getLastD "") :=
  feed_dataEvs_title ds p h1 h2 h3

theorem claim9_witness :
    ((⟨[⟨[], none, none⟩], true, []⟩ : ContentParser).isHeaderTag = true ∧
      (⟨[⟨[], none, none⟩], true, []⟩ : ContentParser).data ≠ [] ∧
      (["One", "Two"] : List String) ≠ []) ∧
    ((feed ⟨[⟨[], none, none⟩], true, []⟩
        (["One", "Two"].map Event.dataEv)).data.getLastD defaultSection).title =
      some (["One", "Two"].getLastD "") :=
  ⟨⟨rfl, by decide, by decide⟩,
   claim9_title_overwrite ⟨[⟨[], none, none⟩], true, []⟩ ["One", "Two"] rfl
     (by decide) (by decide)⟩

/-! ## Claims about the serializer -/

/-- Claim C3 does not hold as stated: after a failed node pre-build the
returned payload is the uncompiled serialization of the SAME configuration,
and the configuration (including the `prebuild_index` value) is part of the
payload, so the bytes differ from a run whose configuration disables
pre-building (`"node"` versus `false` under the `prebuild_index` key).
Here both runs share the same (empty) entry store and agree on every other
configuration value. -/
theorem claim3_counterexample :
    prebuildNode cfgNode.prebuild_index = true ∧
    nodeFailed (NodeResult.finished none "boom") ∧
    prebuildDisabled cfgFull.prebuild_index ∧
    (generateSearchIndex ⟨[], cfgNode⟩ (.finished none "boom") false .null).warnings ≠ [] ∧
    (generateSearchIndex ⟨[], cfgNode⟩ (.finished none "boom") false .null).data ≠
      (generateSearchIndex ⟨[], cfgFull⟩ (.finished none "boom") false .null).data :=
  ⟨rfl, Or.inl (by decide), ⟨rfl, rfl⟩, by decide, by decide⟩

/-- Claim C3 (amended): with the node pre-build strategy selected, any
child-process failure (spawn error, non-empty error stream, or unparsable
output) makes `generate_search_index` return the uncompiled serialization
of the same store and configuration — the payload computed before the
pre-build attempt, which carries no `index` key — and log a warning; no
exception escapes.  (The payload is not byte-identical to a run configured
with pre-build disabled, because the serialized configuration differs at
the `prebuild_index` key.) -/
theorem claim3_amended (si : SearchIndex) (node : NodeResult) (hl : Bool) (lj : JVal)
    (h1 : prebuildNode si.config.prebuild_index = true) (h2 : nodeFailed node) :
    (generateSearchIndex si node hl lj).data = uncompiledPayload si ∧
    (generateSearchIndex si node hl lj).warnings ≠ [] := by
  cases node with
  | oserror msg =>
    refine ⟨?_, ?_⟩ <;> simp [generateSearchIndex, h1]
  | finished out err =>
    rw [nodeFailed] at h2
    by_cases herr : err = ""
    · have hout : out = none := by
        rcases h2 with h | h
        · exact absurd herr h
        · exact h
      subst hout
      subst herr
      refine ⟨?_, ?_⟩ <;> simp [generateSearchIndex, h1]
    · have hbe : (err == "") = false := by simpa using herr
      refine ⟨?_, ?_⟩ <;> simp [generateSearchIndex, h1, hbe]

theorem claim3_witness :
    (prebuildNode cfgNode.prebuild_index = true ∧
      nodeFailed (NodeResult.finished (some JVal.null) "boom")) ∧
    ((generateSearchIndex ⟨[], cfgNode⟩ (.finished (some JVal.null) "boom") false .null).data =
        uncompiledPayload ⟨[], cfgNode⟩ ∧
      (generateSearchIndex ⟨[], cfgNode⟩
          (.finished (some JVal.null) "boom") false .null).warnings ≠ []) :=
  ⟨⟨rfl, Or.inl (by decide)⟩,
   claim3_amended ⟨[], cfgNode⟩ (.finished (some JVal.null) "boom") false .null rfl
     (Or.inl (by decide))⟩

/-- Claim C8: with pre-build disabled the serializer ignores every external
oracle and leaves the index state untouched, so two successive calls on the
same store and configuration return byte-identical JSON strings. -/
theorem claim8_deterministic (si : SearchIndex) (n1 n2 : NodeResult) (b1 b2 : Bool)
    (l1 l2 : JVal) (h : prebuildDisabled si.config.prebuild_index) :
    (generateSearchIndex si n1 b1 l1).data = (generateSearchIndex si n2 b2 l2).data := by
  obtain ⟨h1, h2⟩ := h
  simp only [generateSearchIndex, h1, h2, Bool.false_eq_true, if_false]

theorem claim8_witness :
    prebuildDisabled cfgFull.prebuild_index ∧
    (generateSearchIndex ⟨[], cfgFull⟩ (.oserror "x") true (.str "idx")).data =
      (generateSearchIndex ⟨[], cfgFull⟩ (.finished (some (.str "other")) "") false .null).data :=
  ⟨⟨rfl, rfl⟩,
   claim8_deterministic ⟨[], cfgFull⟩ (.oserror "x") (.finished (some (.str "other")) "")
     true false (.str "idx") .null ⟨rfl, rfl⟩⟩

end Mkdocs
